import Mathlib

/-!
Verification development for the pngCompress batch-processing pipeline.

The definitions below are a shallow embedding of the TypeScript sources:
  * `compressFile` and `processFiles` from the compressor module
    (src/unnamed/part_000),
  * the `scan-paths` IPC handler from src/src/main/ipc.ts,
  * the deduplicating `addFilesToQueue` from
    src/src/renderer/components/Dashboard.tsx.

Filesystem and codec access are opaque capabilities in the sources
(`fs-extra`, `sharp`); they are modelled as records of fallible functions.
Asynchronous completion is modelled by quantifying over the completion
order of jobs, and the `p-limit` concurrency limiter is modelled as a
transition system.
-/

namespace PngCompress

/-! ## Path and extension handling (models of node's `path.extname`,
`String.prototype.toLowerCase`, and `path.join`). -/

/-- Characters of the basename: everything after the last `/` separator. -/
def afterLastSep (cs : List Char) : List Char :=
  cs.foldl (fun acc c => if c = '/' then [] else acc ++ [c]) []

/-- Suffix of the list starting at the last `.`, if any. -/
def tailFromLastDot : List Char → Option (List Char)
  | [] => none
  | c :: cs =>
    match tailFromLastDot cs with
    | some r => some r
    | none => if c = '.' then some (c :: cs) else none

/-- Model of node's `path.extname`: the extension of the basename,
from the last dot that is not the basename's first character. -/
def extname (p : String) : String :=
  match afterLastSep p.toList with
  | [] => ""
  | _ :: cs =>
    match tailFromLastDot cs with
    | some r => String.mk r
    | none => ""

/-- Model of `String.prototype.toLowerCase`: lower-case every character. -/
def toLowerStr (s : String) : String := String.mk (s.toList.map Char.toLower)

/-- Model of `path.join(dir, name)` with a posix separator. -/
def pathJoin (dir name : String) : String := dir ++ "/" ++ name

/-! ## Data model (from src/unnamed/part_000). -/

/-- `CompressionOptions.mode` from the compressor module. -/
inductive CompressionMode
  | lossy
  | lossless
deriving DecidableEq, Repr

/-- The `CompressionOptions` interface. -/
structure CompressionOptions where
  mode : CompressionMode
  quality : Nat
deriving DecidableEq, Repr

/-- Status values of `CompressionResult.status`. -/
inductive CompressionStatus
  | success
  | skipped
  | error
deriving DecidableEq, Repr

/-- The `CompressionResult` interface; `err` is the optional `error` field. -/
structure CompressionResult where
  filePath : String
  originalSize : Nat
  compressedSize : Nat
  savedBefore : Nat
  status : CompressionStatus
  err : Option String
deriving DecidableEq, Repr

/-- `SUPPORTED_EXTENSIONS` from the compressor module. -/
def SUPPORTED_EXTENSIONS : List String := [".png", ".jpg", ".jpeg"]

/-! ## Opaque capabilities: filesystem and codec. -/

/-- Result of `fs.stat`. -/
structure StatInfo where
  isDirectory : Bool
  size : Nat
deriving DecidableEq, Repr

/-- A directory entry as returned by `fs.readdir(dir, withFileTypes)`. -/
structure Dirent where
  name : String
  isDir : Bool
deriving DecidableEq, Repr

/-- The filesystem capability. Each operation either succeeds or throws
with an error message (`Except.error`). Buffers are byte lists. -/
structure FS where
  stat : String → Except String StatInfo
  readdir : String → Except String (List Dirent)
  readFile : String → Except String (List Nat)
  writeFile : String → List Nat → Except String Unit

/-- The four distinct `sharp` invocations in `compressFile`, one per
(extension class, mode) pair. -/
inductive SharpCall
  | pngLossy (quality : Nat)
  | pngLossless
  | jpegLossy (quality : Nat)
  | jpegLossless
deriving DecidableEq, Repr

/-- The codec capability (the `sharp` library): given the selected call and
the input bytes, returns output bytes or throws. -/
structure Transcoder where
  encode : SharpCall → List Nat → Except String (List Nat)

/-! ## `compressFile` (src/unnamed/part_000, lines 22–112). -/

/-- The result built in `compressFile`'s catch-all handler: status `error`
with the thrown message and both sizes reported as `0`. -/
def errorResult (filePath msg : String) : CompressionResult :=
  ⟨filePath, 0, 0, 0, .error, some msg⟩

/-- Which `sharp` pipeline `compressFile` selects for a supported
(lower-cased) extension and the options. -/
def sharpCallFor (ext : String) (options : CompressionOptions) : SharpCall :=
  if ext = ".png" then
    if options.mode = .lossy then .pngLossy options.quality else .pngLossless
  else
    if options.mode = .lossy then .jpegLossy options.quality else .jpegLossless

/-- Model of `compressFile`. Besides the `CompressionResult` it returns the
write it performed, if any (`some (path, bytes)` when the file was
overwritten), so that on-disk effects are observable. Every throwing
operation lands in the catch-all `errorResult`. -/
def compressFile (fs : FS) (tc : Transcoder) (filePath : String)
    (options : CompressionOptions) :
    CompressionResult × Option (String × List Nat) :=
  match fs.stat filePath with
  | .error e => (errorResult filePath e, none)
  | .ok stats =>
    if ¬ SUPPORTED_EXTENSIONS.contains (toLowerStr (extname filePath)) then
      (⟨filePath, stats.size, stats.size, 0, .skipped, some "Unsupported format"⟩, none)
    else
      match fs.readFile filePath with
      | .error e => (errorResult filePath e, none)
      | .ok inputBuffer =>
        match tc.encode (sharpCallFor (toLowerStr (extname filePath)) options) inputBuffer with
        | .error e => (errorResult filePath e, none)
        | .ok outputBuffer =>
          if outputBuffer.length < stats.size then
            match fs.writeFile filePath outputBuffer with
            | .error e => (errorResult filePath e, none)
            | .ok _ =>
              (⟨filePath, stats.size, outputBuffer.length,
                stats.size - outputBuffer.length, .success, none⟩,
               some (filePath, outputBuffer))
          else
            (⟨filePath, stats.size, stats.size, 0, .success, none⟩, none)

/-! ## The `scan-paths` IPC handler (src/src/main/ipc.ts, lines 50–94).
Directory recursion is modelled with a fuel parameter; every theorem below
holds for every fuel value. -/

/-- Inner `scanDir` of the `scan-paths` handler: a failing `readdir` is
caught (logged) and contributes nothing; non-directory entries are kept
when their extension is in the allow-list. -/
def scanDirIpc (fs : FS) : Nat → String → List String
  | 0, _ => []
  | fuel + 1, dir =>
    match fs.readdir dir with
    | .error _ => []
    | .ok entries =>
      (entries.map (fun e =>
        if e.isDir then scanDirIpc fs fuel (pathJoin dir e.name)
        else if SUPPORTED_EXTENSIONS.contains (toLowerStr (extname e.name)) then
          [pathJoin dir e.name]
        else [])).flatten

/-- One iteration of the `for (const p of inputPaths)` loop in `scan-paths`:
a failing `stat` is caught and the path skipped; directories are scanned
recursively; files are kept only with a supported extension. -/
def scanPathsStep (fs : FS) (fuel : Nat) (results : List String) (p : String) :
    List String :=
  match fs.stat p with
  | .error _ => results
  | .ok st =>
    if st.isDirectory then results ++ scanDirIpc fs fuel p
    else if SUPPORTED_EXTENSIONS.contains (toLowerStr (extname p)) then results ++ [p]
    else results

/-- The `scan-paths` handler: expand the input paths into image file paths. -/
def scanPaths (fs : FS) (fuel : Nat) (inputPaths : List String) : List String :=
  inputPaths.foldl (scanPathsStep fs fuel) []

/-! ## The expansion phase of `processFiles` (src/unnamed/part_000,
lines 114–143). Unlike `scan-paths`, neither the `stat` of an input path
nor the recursive `scanDir` is wrapped in try/catch there, so a failure
rejects the whole `processFiles` promise. -/

/-- Concatenate a list of fallible results, propagating the first error
(the thrown exception aborts the surrounding loop). -/
def joinE : List (Except String (List String)) → Except String (List String)
  | [] => .ok []
  | .error e :: _ => .error e
  | .ok xs :: rest =>
    match joinE rest with
    | .error e => .error e
    | .ok ys => .ok (xs ++ ys)

/-- Inner `scanDir` of `processFiles`: no try/catch, so a `readdir` failure
propagates. Fuel exhaustion is reported as an error so that it is never
mistaken for a successful scan. -/
def scanDirComp (fs : FS) : Nat → String → Except String (List String)
  | 0, _ => .error "fuel exhausted"
  | fuel + 1, dir =>
    match fs.readdir dir with
    | .error e => .error e
    | .ok entries =>
      joinE (entries.map (fun e =>
        if e.isDir then scanDirComp fs fuel (pathJoin dir e.name)
        else if SUPPORTED_EXTENSIONS.contains (toLowerStr (extname e.name)) then
          .ok [pathJoin dir e.name]
        else .ok []))

/-- The `for (const p of filePaths)` loop of `processFiles` building
`allFiles`: a `stat` failure propagates and aborts the batch; a
non-directory input path is pushed without any extension check. -/
def expandComp (fs : FS) (fuel : Nat) : List String → Except String (List String)
  | [] => .ok []
  | p :: rest =>
    match fs.stat p with
    | .error e => .error e
    | .ok st =>
      if st.isDirectory then
        match scanDirComp fs fuel p with
        | .error e => .error e
        | .ok sub =>
          match expandComp fs fuel rest with
          | .error e => .error e
          | .ok more => .ok (sub ++ more)
      else
        match expandComp fs fuel rest with
        | .error e => .error e
        | .ok more => .ok (p :: more)

/-! ## The scheduling and progress phase of `processFiles`
(src/unnamed/part_000, lines 145–157). Each task runs
`compressFile`, then increments the shared `done` counter and fires
`onProgress(done, total, result)`. The JavaScript event loop executes each
increment-and-fire step atomically, so the emitted events are determined by
the completion order of the jobs, which is some permutation of `allFiles`. -/

/-- A progress callback invocation `onProgress(done, total, result)`. -/
structure ProgressEvent where
  done : Nat
  total : Nat
  result : CompressionResult
deriving DecidableEq, Repr

/-- The progress events emitted by `processFiles` for a batch `allFiles`
when its jobs complete in the order `order`: the i-th completed job fires
with `done = i + 1` and `total = allFiles.length`. -/
def processEvents (fs : FS) (tc : Transcoder) (options : CompressionOptions)
    (allFiles : List String) (order : List String) : List ProgressEvent :=
  order.enum.map
    (fun ie => ⟨ie.1 + 1, allFiles.length, (compressFile fs tc ie.2 options).1⟩)

/-! ## The concurrency limiter. The compressor module creates a single
module-level limiter, `const limit = pLimit(3)` (src/unnamed/part_000,
lines 19–20), through which `processFiles` routes every task. -/

/-- Modelled from the spec: the `p-limit` dependency is outside this
repository; per the spec it is a fixed-size worker pool — a job is
dispatched only while fewer than the ceiling are in flight, and a slot is
freed when a job completes. -/
def limitCeiling : Nat := 3

/-- State of the limiter for one batch: how many tasks still wait in the
queue and how many are currently in flight (Processing). -/
structure LimiterState where
  pending : Nat
  active : Nat
deriving DecidableEq, Repr

/-- Modelled from the spec: one scheduling step of the `p-limit` pool.
`dispatch` starts a queued task only when fewer than `limitCeiling` are in
flight; `complete` finishes an in-flight task. -/
inductive LimStep : LimiterState → LimiterState → Prop
  | dispatch (s : LimiterState) :
      s.active < limitCeiling → 0 < s.pending →
      LimStep s ⟨s.pending - 1, s.active + 1⟩
  | complete (s : LimiterState) :
      0 < s.active →
      LimStep s ⟨s.pending, s.active - 1⟩

/-- States reachable while a batch of `n` submitted tasks is scheduled:
initially all `n` tasks are queued and none is in flight. -/
def LimReachable (n : Nat) (s : LimiterState) : Prop :=
  Relation.ReflTransGen LimStep ⟨n, 0⟩ s

/-- State of the single module-level limiter while two `processFiles`
batches with overlapping schedule phases run through it: per-batch pending
and in-flight task counts, one shared slot pool. -/
structure TwoBatchState where
  pendingA : Nat
  pendingB : Nat
  activeA : Nat
  activeB : Nat
deriving DecidableEq, Repr

/-- Modelled from the spec: scheduling steps of the shared `p-limit` pool
when tasks of two batches are queued in it. Because the limiter is one
module-level singleton, a dispatch from either batch requires the COMBINED
in-flight count to be below the ceiling. -/
inductive TwoBatchStep : TwoBatchState → TwoBatchState → Prop
  | dispatchA (s : TwoBatchState) :
      s.activeA + s.activeB < limitCeiling → 0 < s.pendingA →
      TwoBatchStep s ⟨s.pendingA - 1, s.pendingB, s.activeA + 1, s.activeB⟩
  | dispatchB (s : TwoBatchState) :
      s.activeA + s.activeB < limitCeiling → 0 < s.pendingB →
      TwoBatchStep s ⟨s.pendingA, s.pendingB - 1, s.activeA, s.activeB + 1⟩
  | completeA (s : TwoBatchState) :
      0 < s.activeA →
      TwoBatchStep s ⟨s.pendingA, s.pendingB, s.activeA - 1, s.activeB⟩
  | completeB (s : TwoBatchState) :
      0 < s.activeB →
      TwoBatchStep s ⟨s.pendingA, s.pendingB, s.activeA, s.activeB - 1⟩

/-- States reachable when batches of `n` and `m` tasks share the limiter. -/
def TwoBatchReachable (n m : Nat) (s : TwoBatchState) : Prop :=
  Relation.ReflTransGen TwoBatchStep ⟨n, m, 0, 0⟩ s

/-! ## Queue admission (`addFilesToQueue`,
src/src/renderer/components/Dashboard.tsx, lines 305–360). The component
keeps the working set in `filesRef`; sequential calls are modelled as a
state transformer on the list of known paths. -/

/-- The strict filter of `addFilesToQueue`:
`allImagePaths.filter(p => !existingPaths.has(p))`. -/
def admitNewPaths (known allImagePaths : List String) : List String :=
  allImagePaths.filter (fun p => ! known.contains p)

/-- One call of `addFilesToQueue` on the current known-path working set:
returns the admitted `newPaths`, the `duplicateCount` surfaced in the
toast, and the updated working set (`filesRef.current` is extended with
the admitted items before the call returns). When every candidate is a
duplicate the call returns early with the candidate count as the
duplicate count and leaves the working set unchanged. -/
def addFilesToQueue (known allImagePaths : List String) :
    List String × Nat × List String :=
  let newPaths := admitNewPaths known allImagePaths
  if newPaths.isEmpty then
    ([], allImagePaths.length, known)
  else
    (newPaths, allImagePaths.length - newPaths.length, known ++ newPaths)

/-! ## Filesystem consistency. `readdir` dirents and `stat` are produced by
the same filesystem, so an entry listed as a file is not stat'd as a
directory. -/

/-- A filesystem is dirent-consistent when a directory entry listed as a
non-directory is never stat'd as a directory under its joined path. -/
def direntStatAgree (fs : FS) : Prop :=
  ∀ d es e, fs.readdir d = .ok es → e ∈ es → e.isDir = false →
    ∀ st, fs.stat (pathJoin d e.name) = .ok st → st.isDirectory = false

/-! ## Concrete fixtures used to evaluate the definitions on closed inputs. -/

/-- A codec that always shrinks to three bytes. -/
def tcShrink : Transcoder := ⟨fun _ _ => .ok [1, 1, 1]⟩

/-- A codec that returns its input unchanged (no gain). -/
def tcSame : Transcoder := ⟨fun _ buf => .ok buf⟩

/-- A codec that always throws. -/
def tcFail : Transcoder := ⟨fun _ _ => .error "codec failure"⟩

/-- Lossy options at quality 80. -/
def optLossy : CompressionOptions := ⟨.lossy, 80⟩

/-- One readable 5-byte image `a.png`. -/
def fsOne : FS where
  stat := fun p => if p = "a.png" then .ok ⟨false, 5⟩ else .error ("ENOENT: " ++ p)
  readdir := fun d => .error ("ENOTDIR: " ++ d)
  readFile := fun p =>
    if p = "a.png" then .ok [0, 0, 0, 0, 0] else .error ("ENOENT: " ++ p)
  writeFile := fun _ _ => .ok ()

/-- One readable 4-byte non-image `a.txt`. -/
def fsTxt : FS where
  stat := fun p => if p = "a.txt" then .ok ⟨false, 4⟩ else .error ("ENOENT: " ++ p)
  readdir := fun d => .error ("ENOTDIR: " ++ d)
  readFile := fun p =>
    if p = "a.txt" then .ok [0, 0, 0, 0] else .error ("ENOENT: " ++ p)
  writeFile := fun _ _ => .ok ()

/-- `bad.png` cannot be stat'd; `good.png` is a readable 5-byte image. -/
def fsBadGood : FS where
  stat := fun p =>
    if p = "bad.png" then .error "EACCES: permission denied, stat bad.png"
    else if p = "good.png" then .ok ⟨false, 5⟩
    else .error ("ENOENT: " ++ p)
  readdir := fun d => .error ("ENOTDIR: " ++ d)
  readFile := fun _ => .error "ENOENT"
  writeFile := fun _ _ => .ok ()

/-- Directory `d` with an image, a text file and an unreadable subdirectory. -/
def fsDir : FS where
  stat := fun p =>
    if p = "d" then .ok ⟨true, 0⟩
    else if p = "d/a.png" then .ok ⟨false, 5⟩
    else if p = "d/c.txt" then .ok ⟨false, 3⟩
    else .error ("ENOENT: " ++ p)
  readdir := fun d =>
    if d = "d" then .ok [⟨"a.png", false⟩, ⟨"c.txt", false⟩, ⟨"sub", true⟩]
    else .error ("EACCES: " ++ d)
  readFile := fun _ => .error "ENOENT"
  writeFile := fun _ _ => .ok ()

/-! # Theorems -/

/-- Helper: `compressFile` reports the path it was given in every branch. -/
theorem compressFile_filePath (fs : FS) (tc : Transcoder) (fp : String)
    (o : CompressionOptions) : (compressFile fs tc fp o).1.filePath = fp := by
  unfold compressFile
  repeat' split
  all_goals rfl

/-- C9: for every file whose extension is not in the supported set,
`compressFile` returns `skipped` (not `error`) with `originalSize` the
actual stat'd size, `compressedSize = originalSize`, `savedBefore = 0`,
and the transcoder is never consulted: the result is identical for every
transcoder. -/
theorem C9_unsupported_skipped (fs : FS) (tc : Transcoder) (fp : String)
    (o : CompressionOptions) (st : StatInfo)
    (hstat : fs.stat fp = .ok st)
    (hext : SUPPORTED_EXTENSIONS.contains (toLowerStr (extname fp)) = false) :
    compressFile fs tc fp o =
      (⟨fp, st.size, st.size, 0, .skipped, some "Unsupported format"⟩, none) ∧
    ∀ tc2 : Transcoder, compressFile fs tc2 fp o = compressFile fs tc fp o := by
  have h : ∀ tc3 : Transcoder,
      compressFile fs tc3 fp o =
        (⟨fp, st.size, st.size, 0, .skipped, some "Unsupported format"⟩, none) := by
    intro tc3
    unfold compressFile
    rw [hstat]
    simp only [hext, Bool.false_eq_true, not_false_eq_true, if_true]
  exact ⟨h tc, fun tc2 => by rw [h tc2, h tc]⟩

/-- Witness for C9: `a.txt` is stat'd (4 bytes) but skipped, and a failing
codec gives the same result as a shrinking one. -/
theorem C9_unsupported_skipped_witness :
    compressFile fsTxt tcFail "a.txt" optLossy =
      (⟨"a.txt", 4, 4, 0, .skipped, some "Unsupported format"⟩, none) ∧
    compressFile fsTxt tcShrink "a.txt" optLossy =
      compressFile fsTxt tcFail "a.txt" optLossy :=
  ⟨(C9_unsupported_skipped fsTxt tcFail "a.txt" optLossy ⟨false, 4⟩ rfl
      (by decide)).1,
   (C9_unsupported_skipped fsTxt tcFail "a.txt" optLossy ⟨false, 4⟩ rfl
      (by decide)).2 tcShrink⟩

/-- C6: when stat, read and transcode succeed on a supported file, there
are exactly two outcomes: if the output is strictly smaller than the
original, the file is overwritten with the output and the result is
success with `savedBefore = originalSize - compressedSize > 0`; otherwise
nothing is written and the result is success with
`compressedSize = originalSize` and `savedBefore = 0` — processing never
grows a file on disk. -/
theorem C6_success_paths (fs : FS) (tc : Transcoder) (fp : String)
    (o : CompressionOptions) (st : StatInfo) (buf out : List Nat)
    (hstat : fs.stat fp = .ok st)
    (hext : SUPPORTED_EXTENSIONS.contains (toLowerStr (extname fp)) = true)
    (hread : fs.readFile fp = .ok buf)
    (henc : tc.encode (sharpCallFor (toLowerStr (extname fp)) o) buf = .ok out) :
    (∀ u, out.length < st.size → fs.writeFile fp out = .ok u →
      compressFile fs tc fp o =
        (⟨fp, st.size, out.length, st.size - out.length, .success, none⟩,
         some (fp, out)) ∧
      0 < st.size - out.length) ∧
    (¬ out.length < st.size →
      compressFile fs tc fp o = (⟨fp, st.size, st.size, 0, .success, none⟩, none)) := by
  have hmem : toLowerStr (extname fp) ∈ SUPPORTED_EXTENSIONS := by
    simpa using hext
  constructor
  · intro u hlt hw
    refine ⟨?_, Nat.sub_pos_of_lt hlt⟩
    unfold compressFile
    rw [hstat]
    simp [hmem, hread, henc, hw, hlt]
  · intro hge
    unfold compressFile
    rw [hstat]
    simp [hmem, hread, henc, hge]

/-- Witness for C6: the 5-byte `a.png` shrinks to 3 bytes, is overwritten
with the output and reported with `savedBefore = 2 > 0`. -/
theorem C6_success_paths_witness :
    compressFile fsOne tcShrink "a.png" optLossy =
      (⟨"a.png", 5, 3, 5 - 3, .success, none⟩, some ("a.png", [1, 1, 1])) ∧
    0 < 5 - 3 :=
  (C6_success_paths fsOne tcShrink "a.png" optLossy ⟨false, 5⟩
      [0, 0, 0, 0, 0] [1, 1, 1] rfl (by decide) rfl rfl).1
    () (by decide) rfl

/-- C7 counterexample: for `a.png` the transcode fails AFTER a successful
stat (5 bytes) and read, so the claim requires the last known sizes
(originalSize 5) in the error result; the catch-all instead reports 0. -/
theorem C7_post_read_sizes_cex :
    (compressFile fsOne tcFail "a.png" optLossy).1.status = .error ∧
    fsOne.stat "a.png" = .ok ⟨false, 5⟩ ∧
    (compressFile fsOne tcFail "a.png" optLossy).1.originalSize = 0 ∧
    (compressFile fsOne tcFail "a.png" optLossy).1.originalSize ≠ 5 :=
  ⟨rfl, rfl, rfl, by decide⟩

/-- C7 (amended): every exception during stat, read, transcode or write
yields an error result carrying the underlying message, with
`originalSize` and `compressedSize` both reported as 0 — for post-read
failures just as for pre-read ones. -/
theorem C7_error_reports_zero_sizes (fs : FS) (tc : Transcoder) (fp : String)
    (o : CompressionOptions) (m : String) :
    (fs.stat fp = .error m → compressFile fs tc fp o = (errorResult fp m, none)) ∧
    (∀ st, fs.stat fp = .ok st →
      SUPPORTED_EXTENSIONS.contains (toLowerStr (extname fp)) = true →
      fs.readFile fp = .error m →
      compressFile fs tc fp o = (errorResult fp m, none)) ∧
    (∀ st buf, fs.stat fp = .ok st →
      SUPPORTED_EXTENSIONS.contains (toLowerStr (extname fp)) = true →
      fs.readFile fp = .ok buf →
      tc.encode (sharpCallFor (toLowerStr (extname fp)) o) buf = .error m →
      compressFile fs tc fp o = (errorResult fp m, none)) ∧
    (∀ st buf out, fs.stat fp = .ok st →
      SUPPORTED_EXTENSIONS.contains (toLowerStr (extname fp)) = true →
      fs.readFile fp = .ok buf →
      tc.encode (sharpCallFor (toLowerStr (extname fp)) o) buf = .ok out →
      out.length < st.size →
      fs.writeFile fp out = .error m →
      compressFile fs tc fp o = (errorResult fp m, none)) ∧
    (errorResult fp m).originalSize = 0 ∧
    (errorResult fp m).compressedSize = 0 ∧
    (errorResult fp m).err = some m := by
  refine ⟨?_, ?_, ?_, ?_, rfl, rfl, rfl⟩
  · intro hstat
    unfold compressFile
    rw [hstat]
  · intro st hstat hext hread
    unfold compressFile
    rw [hstat]
    simp [show toLowerStr (extname fp) ∈ SUPPORTED_EXTENSIONS by simpa using hext,
      hread]
  · intro st buf hstat hext hread henc
    unfold compressFile
    rw [hstat]
    simp [show toLowerStr (extname fp) ∈ SUPPORTED_EXTENSIONS by simpa using hext,
      hread, henc]
  · intro st buf out hstat hext hread henc hlt hw
    unfold compressFile
    rw [hstat]
    simp [show toLowerStr (extname fp) ∈ SUPPORTED_EXTENSIONS by simpa using hext,
      hread, henc, hlt, hw]

/-- Witness for C7: a codec failure after the read of `a.png` is reported
with the codec's message and zero sizes. -/
theorem C7_error_reports_zero_sizes_witness :
    compressFile fsOne tcFail "a.png" optLossy =
      (errorResult "a.png" "codec failure", none) :=
  (C7_error_reports_zero_sizes fsOne tcFail "a.png" optLossy "codec failure").2.2.1
    ⟨false, 5⟩ [0, 0, 0, 0, 0] rfl (by decide) rfl rfl

/-- Helper: membership in the admitted paths means membership in the
candidates and absence from the known working set. -/
theorem mem_admitNewPaths {known c : List String} {p : String} :
    p ∈ admitNewPaths known c ↔ p ∈ c ∧ p ∉ known := by
  simp [admitNewPaths, List.mem_filter]

/-- Helper: the admitted paths are a sublist of the strict filter. -/
theorem addFilesToQueue_fst_subset (known c : List String) :
    (addFilesToQueue known c).1 ⊆ admitNewPaths known c := by
  unfold addFilesToQueue
  dsimp only
  split
  · intro p hp
    simp at hp
  · exact fun p hp => hp

/-- Helper: after a call, the working set is the old one plus exactly the
admitted paths. -/
theorem addFilesToQueue_state (known c : List String) :
    (addFilesToQueue known c).2.2 = known ++ (addFilesToQueue known c).1 := by
  unfold addFilesToQueue
  dsimp only
  split
  · simp
  · rfl

/-- Helper: a duplicate-free candidate list is admitted without internal
duplicates. -/
theorem addFilesToQueue_fst_nodup (known c : List String) (h : c.Nodup) :
    (addFilesToQueue known c).1.Nodup := by
  unfold addFilesToQueue
  dsimp only
  split
  · simp
  · exact h.filter _

/-- C1 counterexample: a single admit call whose expanded candidate list
names the same path twice (exactly what `scanPaths` produces when the user
drops a directory together with a file inside it) admits the path twice:
the union of the newPaths outputs of two sequential calls has a duplicate,
and two queue items with the same path identity enter the working set. -/
theorem C1_duplicate_admission_cex :
    scanPaths fsDir 2 ["d", "d/a.png"] = ["d/a.png", "d/a.png"] ∧
    (addFilesToQueue [] ["d/a.png", "d/a.png"]).1 = ["d/a.png", "d/a.png"] ∧
    ¬ ((addFilesToQueue [] ["d/a.png", "d/a.png"]).1 ++
       (addFilesToQueue (addFilesToQueue [] ["d/a.png", "d/a.png"]).2.2
         ["d/a.png"]).1).Nodup ∧
    ¬ (addFilesToQueue (addFilesToQueue [] ["d/a.png", "d/a.png"]).2.2
        ["d/a.png"]).2.2.Nodup := by
  decide

/-- C1 (amended): the immediate `filesRef` update makes sequential admit
calls safe ACROSS calls — the second call never re-admits a path the first
call accepted, and, provided each call's candidate list is itself
duplicate-free, the union of the two newPaths outputs has no duplicate and
the working set keeps at most one item per path; duplicates within one
candidate list, however, are admitted multiply (see the counterexample),
and re-submitted duplicates only change the reported duplicate count
`candidates.length - newPaths.length`. -/
theorem C1_sequential_admission (known c1 c2 : List String)
    (hk : known.Nodup) (h1 : c1.Nodup) (h2 : c2.Nodup) :
    (∀ p, p ∈ (addFilesToQueue (addFilesToQueue known c1).2.2 c2).1 →
       p ∉ (addFilesToQueue known c1).1) ∧
    ((addFilesToQueue known c1).1 ++
      (addFilesToQueue (addFilesToQueue known c1).2.2 c2).1).Nodup ∧
    (addFilesToQueue (addFilesToQueue known c1).2.2 c2).2.2.Nodup ∧
    (addFilesToQueue known c1).2.1 =
      c1.length - (addFilesToQueue known c1).1.length := by
  have hstate1 := addFilesToQueue_state known c1
  have hn1 : (addFilesToQueue known c1).1.Nodup := addFilesToQueue_fst_nodup _ _ h1
  have hn2 : (addFilesToQueue (addFilesToQueue known c1).2.2 c2).1.Nodup :=
    addFilesToQueue_fst_nodup _ _ h2
  have hdisj2 : ∀ p, p ∈ (addFilesToQueue (addFilesToQueue known c1).2.2 c2).1 →
      p ∉ (addFilesToQueue known c1).2.2 := by
    intro p hp
    exact (mem_admitNewPaths.mp (addFilesToQueue_fst_subset _ _ hp)).2
  have hdisj1 : ∀ p, p ∈ (addFilesToQueue known c1).1 → p ∉ known := by
    intro p hp
    exact (mem_admitNewPaths.mp (addFilesToQueue_fst_subset _ _ hp)).2
  have ha : ∀ p, p ∈ (addFilesToQueue (addFilesToQueue known c1).2.2 c2).1 →
      p ∉ (addFilesToQueue known c1).1 := by
    intro p hp hmem
    exact hdisj2 p hp (hstate1 ▸ List.mem_append_right known hmem)
  refine ⟨ha, ?_, ?_, ?_⟩
  · exact List.Nodup.append hn1 hn2 (fun p hp1 hp2 => ha p hp2 hp1)
  · rw [addFilesToQueue_state]
    refine List.Nodup.append ?_ hn2 (fun p hp1 hp2 => hdisj2 p hp2 hp1)
    rw [hstate1]
    exact List.Nodup.append hk hn1 (fun p hp1 hp2 => hdisj1 p hp2 hp1)
  · unfold addFilesToQueue
    dsimp only
    split
    · simp
    · rfl

/-- Witness for C1 at concrete duplicate-free candidate lists: the first
call admits both paths, the second call, overlapping the first, admits
nothing new. -/
theorem C1_sequential_admission_witness :
    [] = ([] : List String) ∧
    (∀ p, p ∈ (addFilesToQueue (addFilesToQueue [] ["a.png", "b.jpg"]).2.2
        ["a.png", "c.png"]).1 →
      p ∉ (addFilesToQueue [] ["a.png", "b.jpg"]).1) ∧
    ((addFilesToQueue [] ["a.png", "b.jpg"]).1 ++
      (addFilesToQueue (addFilesToQueue [] ["a.png", "b.jpg"]).2.2
        ["a.png", "c.png"]).1).Nodup :=
  ⟨rfl,
   (C1_sequential_admission [] ["a.png", "b.jpg"] ["a.png", "c.png"]
      (by decide) (by decide) (by decide)).1,
   (C1_sequential_admission [] ["a.png", "b.jpg"] ["a.png", "c.png"]
      (by decide) (by decide) (by decide)).2.1⟩

/-- Helper: one step of the `scan-paths` loop only appends to its
accumulator. -/
theorem scanPathsStep_acc (fs : FS) (fuel : Nat) (acc : List String)
    (p : String) :
    scanPathsStep fs fuel acc p = acc ++ scanPathsStep fs fuel [] p := by
  unfold scanPathsStep
  cases fs.stat p with
  | error e => simp
  | ok st =>
    dsimp only
    split
    · rfl
    · split <;> simp

/-- Helper: the `scan-paths` fold from any accumulator. -/
theorem scanPaths_foldl (fs : FS) (fuel : Nat) :
    ∀ (l : List String) (acc : List String),
      l.foldl (scanPathsStep fs fuel) acc = acc ++ scanPaths fs fuel l := by
  intro l
  induction l with
  | nil => intro acc; simp [scanPaths]
  | cons p l ih =>
    intro acc
    show l.foldl (scanPathsStep fs fuel) (scanPathsStep fs fuel acc p) = _
    rw [ih (scanPathsStep fs fuel acc p), scanPathsStep_acc fs fuel acc p,
      List.append_assoc]
    have : scanPaths fs fuel (p :: l) =
        scanPathsStep fs fuel [] p ++ scanPaths fs fuel l := by
      show l.foldl (scanPathsStep fs fuel) (scanPathsStep fs fuel [] p) = _
      rw [ih (scanPathsStep fs fuel [] p)]
    rw [this]

/-- C8 counterexample: `scan-paths` does not deduplicate: naming the same
existing image file twice (or a file together with its parent directory)
makes it appear twice in the expansion output. -/
theorem C8_no_dedup_cex :
    scanPaths fsOne 1 ["a.png", "a.png"] = ["a.png", "a.png"] ∧
    ¬ (scanPaths fsOne 1 ["a.png", "a.png"]).Nodup ∧
    ¬ (scanPaths fsDir 2 ["d", "d/a.png"]).Nodup := by
  decide

/-- C8 (amended): the expander produces a flat ordered sequence — the
output of a concatenated input list is the concatenation of the outputs,
in order — but it does NOT deduplicate: a path reachable through two input
entries appears once per entry, and deduplication happens only downstream
against the already-known working set. -/
theorem C8_expander_append (fs : FS) (fuel : Nat) (ps qs : List String) :
    scanPaths fs fuel (ps ++ qs) =
      scanPaths fs fuel ps ++ scanPaths fs fuel qs := by
  unfold scanPaths
  rw [List.foldl_append, scanPaths_foldl]
  rfl

/-- Helper: the basename after the last separator ignores everything before
that separator. -/
theorem afterLastSep_append (xs ys : List Char) :
    afterLastSep (xs ++ '/' :: ys) = afterLastSep ys := by
  unfold afterLastSep
  rw [List.foldl_append, List.foldl_cons]
  simp

/-- Helper: the extension of a joined path is the extension of its final
component. -/
theorem extname_pathJoin (d name : String) :
    extname (pathJoin d name) = extname name := by
  unfold extname pathJoin
  have h1 : (d ++ "/" ++ name).toList = d.toList ++ '/' :: name.toList := by
    show (d.data ++ ['/']) ++ name.data = d.data ++ '/' :: name.data
    rw [List.append_assoc]
    rfl
  rw [h1, afterLastSep_append]

/-- Helper: on a dirent-consistent filesystem, every output of the
`scan-paths` directory walk has a supported extension and is never stat'd
as a directory. -/
theorem scanDirIpc_good (fs : FS) (hc : direntStatAgree fs) :
    ∀ (fuel : Nat) (dir q : String), q ∈ scanDirIpc fs fuel dir →
      SUPPORTED_EXTENSIONS.contains (toLowerStr (extname q)) = true ∧
      ∀ st, fs.stat q = .ok st → st.isDirectory = false := by
  intro fuel
  induction fuel with
  | zero => intro dir q hq; simp [scanDirIpc] at hq
  | succ fuel ih =>
    intro dir q hq
    unfold scanDirIpc at hq
    cases hrd : fs.readdir dir with
    | error e => rw [hrd] at hq; simp at hq
    | ok entries =>
      rw [hrd] at hq
      simp only [List.mem_flatten, List.mem_map] at hq
      obtain ⟨l, ⟨e, he, rfl⟩, hql⟩ := hq
      by_cases hd : e.isDir
      · rw [if_pos hd] at hql
        exact ih (pathJoin dir e.name) q hql
      · rw [if_neg hd] at hql
        by_cases hs : SUPPORTED_EXTENSIONS.contains (toLowerStr (extname e.name)) = true
        · rw [if_pos hs] at hql
          simp only [List.mem_singleton] at hql
          subst hql
          refine ⟨?_, ?_⟩
          · rw [extname_pathJoin]
            exact hs
          · intro st hst
            exact hc dir entries e hrd he (by simpa using hd) st hst
        · rw [if_neg hs] at hql
          simp at hql

/-- Helper: the fixture `fsDir` is dirent-consistent. -/
theorem fsDir_agree : direntStatAgree fsDir := by
  intro d es e hrd he hfile st hst
  by_cases hd : d = "d"
  · subst hd
    have hes : es = [⟨"a.png", false⟩, ⟨"c.txt", false⟩, ⟨"sub", true⟩] := by
      have h0 : fsDir.readdir "d" =
          .ok [⟨"a.png", false⟩, ⟨"c.txt", false⟩, ⟨"sub", true⟩] := rfl
      rw [h0] at hrd
      injection hrd with h
      exact h.symm
    subst hes
    simp only [List.mem_cons, List.not_mem_nil, or_false] at he
    rcases he with rfl | rfl | rfl
    · have h5 : fsDir.stat (pathJoin "d" "a.png") = .ok ⟨false, 5⟩ := rfl
      rw [h5] at hst
      injection hst with h
      rw [← h]
    · have h3 : fsDir.stat (pathJoin "d" "c.txt") = .ok ⟨false, 3⟩ := rfl
      rw [h3] at hst
      injection hst with h
      rw [← h]
    · exact absurd hfile (by decide)
  · have hrd2 : fsDir.readdir d = .error ("EACCES: " ++ d) := by
      unfold fsDir
      dsimp only
      rw [if_neg hd]
    rw [hrd2] at hrd
    exact Except.noConfusion hrd

/-- C5 counterexample: the `processFiles` expansion pushes a directly
supplied non-directory path with NO extension check, so its output can
contain an unsupported-extension entry, contrary to the claim. -/
theorem C5_unsupported_in_expansion_cex :
    expandComp fsTxt 1 ["a.txt"] = .ok ["a.txt"] ∧
    SUPPORTED_EXTENSIONS.contains (toLowerStr (extname "a.txt")) = false :=
  ⟨rfl, by decide⟩

/-- C5 (amended): the `scan-paths` expander satisfies the claim — on a
dirent-consistent filesystem its output contains only supported-extension
entries and no entry it would stat as a directory, for every input list
and fuel — while the `processFiles` internal expansion admits
directly-supplied file paths regardless of extension (they are classified
Skipped downstream, see the counterexample). -/
theorem C5_scanPaths_supported (fs : FS) (hc : direntStatAgree fs)
    (fuel : Nat) (ps : List String) (q : String)
    (hq : q ∈ scanPaths fs fuel ps) :
    SUPPORTED_EXTENSIONS.contains (toLowerStr (extname q)) = true ∧
    ∀ st, fs.stat q = .ok st → st.isDirectory = false := by
  induction ps with
  | nil => simp [scanPaths] at hq
  | cons p ps ih =>
    have hsplit : scanPaths fs fuel (p :: ps) =
        scanPathsStep fs fuel [] p ++ scanPaths fs fuel ps := by
      show List.foldl _ (scanPathsStep fs fuel [] p) ps = _
      rw [scanPaths_foldl]
    rw [hsplit] at hq
    rcases List.mem_append.mp hq with hq1 | hq2
    · unfold scanPathsStep at hq1
      cases hst : fs.stat p with
      | error e => rw [hst] at hq1; simp at hq1
      | ok st =>
        rw [hst] at hq1
        dsimp only at hq1
        by_cases hdir : st.isDirectory
        · rw [if_pos hdir] at hq1
          simp only [List.nil_append] at hq1
          exact scanDirIpc_good fs hc fuel p q hq1
        · rw [if_neg hdir] at hq1
          by_cases hs : SUPPORTED_EXTENSIONS.contains (toLowerStr (extname p)) = true
          · rw [if_pos hs] at hq1
            simp only [List.nil_append, List.mem_singleton] at hq1
            subst hq1
            refine ⟨hs, ?_⟩
            intro st2 hst2
            rw [hst] at hst2
            injection hst2 with h
            rw [← h]
            simpa using hdir
          · rw [if_neg hs] at hq1
            simp at hq1
    · exact ih hq2

/-- Witness for C5: the scan of directory `d` yields `d/a.png`, which has
a supported extension and is stat'd as a regular file. -/
theorem C5_scanPaths_supported_witness :
    SUPPORTED_EXTENSIONS.contains (toLowerStr (extname "d/a.png")) = true ∧
    fsDir.stat "d/a.png" = .ok ⟨false, 5⟩ :=
  ⟨(C5_scanPaths_supported fsDir fsDir_agree 2 ["d"] "d/a.png" (by decide)).1,
   rfl⟩

/-- C4 counterexample: in `processFiles` the stat of an input path is not
wrapped in try/catch, so one unreadable path rejects the whole expansion —
the readable `good.png` in the same batch is never reached — whereas the
`scan-paths` handler skips the bad path and keeps `good.png`. -/
theorem C4_stat_failure_aborts_cex :
    expandComp fsBadGood 1 ["bad.png", "good.png"] =
      .error "EACCES: permission denied, stat bad.png" ∧
    fsBadGood.stat "good.png" = .ok ⟨false, 5⟩ ∧
    scanPaths fsBadGood 1 ["bad.png", "good.png"] = ["good.png"] :=
  ⟨rfl, rfl, by decide⟩

/-- C4 (amended): in the `scan-paths` expander the failure policy of the
claim holds — a path whose stat fails is excluded and expansion continues
with the remaining paths unchanged, and an unreadable directory
contributes nothing instead of aborting — while the `processFiles`
internal expansion aborts the whole batch on the same failure (see the
counterexample). -/
theorem C4_scanPaths_skips_failures (fs : FS) (fuel : Nat) (p m : String)
    (hp : fs.stat p = .error m) :
    (∀ pre post : List String,
      scanPaths fs fuel (pre ++ p :: post) = scanPaths fs fuel (pre ++ post)) ∧
    (∀ (k : Nat) (d m2 : String), fs.readdir d = .error m2 →
      scanDirIpc fs (k + 1) d = []) := by
  constructor
  · intro pre post
    unfold scanPaths
    rw [List.foldl_append, List.foldl_append, List.foldl_cons]
    have hid : scanPathsStep fs fuel
        (List.foldl (scanPathsStep fs fuel) [] pre) p =
        List.foldl (scanPathsStep fs fuel) [] pre := by
      unfold scanPathsStep
      rw [hp]
    rw [hid]
  · intro k d m2 hrd
    unfold scanDirIpc
    rw [hrd]

/-- Witness for C4: dropping the unreadable `bad.png` from the input list
does not change the `scan-paths` output, and scanning an unreadable
directory returns the empty list. -/
theorem C4_scanPaths_skips_failures_witness :
    scanPaths fsBadGood 1 ([] ++ "bad.png" :: ["good.png"]) =
      scanPaths fsBadGood 1 ([] ++ ["good.png"]) ∧
    scanDirIpc fsBadGood (0 + 1) "z" = [] :=
  ⟨(C4_scanPaths_skips_failures fsBadGood 1 "bad.png"
      "EACCES: permission denied, stat bad.png" rfl).1 [] ["good.png"],
   (C4_scanPaths_skips_failures fsBadGood 1 "bad.png"
      "EACCES: permission denied, stat bad.png" rfl).2 0 "z" "ENOTDIR: z" rfl⟩

/-- Helper: the file paths reported by a batch's progress events are the
completion order itself. -/
theorem processEvents_map_filePath (fs : FS) (tc : Transcoder)
    (o : CompressionOptions) (allFiles order : List String) :
    (processEvents fs tc o allFiles order).map (fun e => e.result.filePath) =
      order := by
  unfold processEvents
  rw [List.map_map]
  have h1 : ((fun e : ProgressEvent => e.result.filePath) ∘
      (fun ie : Nat × String =>
        (⟨ie.1 + 1, allFiles.length, (compressFile fs tc ie.2 o).1⟩ :
          ProgressEvent))) =
      fun ie : Nat × String => (compressFile fs tc ie.2 o).1.filePath := rfl
  rw [h1]
  have h2 : (List.map (fun ie : Nat × String =>
      (compressFile fs tc ie.2 o).1.filePath) order.enum) =
      List.map Prod.snd order.enum :=
    List.map_congr_left (fun ie _ => compressFile_filePath fs tc ie.2 o)
  rw [h2, List.enum_map_snd]

/-- C2: for a batch `allFiles` whose jobs complete in any order `order`,
the scheduler emits exactly one progress event per item; the emitted
`done` values are exactly 1, 2, …, total, so `done` increments by exactly
1 per event, is monotone, reaches `total` exactly at the last event and
never afterwards; every event carries the batch's fixed total; and every
dispatched item reaches a terminal result (success, skipped or error) in
exactly one event — no per-item failure blocks the rest. -/
theorem C2_scheduler_events (fs : FS) (tc : Transcoder)
    (o : CompressionOptions) (allFiles order : List String)
    (hp : order.Perm allFiles) :
    (processEvents fs tc o allFiles order).length = allFiles.length ∧
    (processEvents fs tc o allFiles order).map (fun e => e.done) =
      List.range' 1 allFiles.length ∧
    ((processEvents fs tc o allFiles order).map
      (fun e => e.result.filePath)).Perm allFiles ∧
    (∀ e, e ∈ processEvents fs tc o allFiles order →
      e.total = allFiles.length ∧
      (e.result.status = .success ∨ e.result.status = .skipped ∨
        e.result.status = .error)) ∧
    (∀ f, f ∈ allFiles → ∃ e, e ∈ processEvents fs tc o allFiles order ∧
      e.result.filePath = f) := by
  have hlen : (processEvents fs tc o allFiles order).length = allFiles.length := by
    unfold processEvents
    rw [List.length_map, List.enum_length, hp.length_eq]
  have hpaths := processEvents_map_filePath fs tc o allFiles order
  refine ⟨hlen, ?_, ?_, ?_, ?_⟩
  · unfold processEvents
    rw [List.map_map]
    have h1 : ((fun e : ProgressEvent => e.done) ∘
        (fun ie : Nat × String =>
          (⟨ie.1 + 1, allFiles.length, (compressFile fs tc ie.2 o).1⟩ :
            ProgressEvent))) =
        fun ie : Nat × String => ie.1 + 1 := rfl
    rw [h1]
    have h2 : (List.map (fun ie : Nat × String => ie.1 + 1) order.enum) =
        List.map (fun n => n + 1) (List.map Prod.fst order.enum) := by
      rw [List.map_map]
      rfl
    rw [h2, List.enum_map_fst, List.range'_eq_map_range, hp.length_eq]
    exact List.map_congr_left (fun x _ => Nat.add_comm x 1)
  · rw [hpaths]
    exact hp
  · intro e he
    unfold processEvents at he
    rcases List.mem_map.mp he with ⟨ie, _, rfl⟩
    refine ⟨rfl, ?_⟩
    cases (compressFile fs tc ie.2 o).1.status with
    | success => exact Or.inl rfl
    | skipped => exact Or.inr (Or.inl rfl)
    | error => exact Or.inr (Or.inr rfl)
  · intro f hf
    have hford : f ∈ (processEvents fs tc o allFiles order).map
        (fun e => e.result.filePath) := by
      rw [hpaths]
      exact hp.mem_iff.mpr hf
    rcases List.mem_map.mp hford with ⟨e, he, hef⟩
    exact ⟨e, he, hef⟩

/-- Witness for C2: a two-item batch completing in reverse order emits two
events with done values 1 and 2. -/
theorem C2_scheduler_events_witness :
    (processEvents fsOne tcShrink optLossy ["a.png", "b.jpg"]
      ["b.jpg", "a.png"]).length = 2 ∧
    (processEvents fsOne tcShrink optLossy ["a.png", "b.jpg"]
      ["b.jpg", "a.png"]).map (fun e => e.done) = List.range' 1 2 :=
  ⟨(C2_scheduler_events fsOne tcShrink optLossy ["a.png", "b.jpg"]
      ["b.jpg", "a.png"] (List.Perm.swap "a.png" "b.jpg" [])).1,
   (C2_scheduler_events fsOne tcShrink optLossy ["a.png", "b.jpg"]
      ["b.jpg", "a.png"] (List.Perm.swap "a.png" "b.jpg" [])).2.1⟩

/-- Helper: a limiter step never raises the in-flight count above the
ceiling. -/
theorem LimStep_active_le {s t : LimiterState} (h : LimStep s t)
    (hs : s.active ≤ limitCeiling) : t.active ≤ limitCeiling := by
  cases h with
  | dispatch hlt hp => exact hlt
  | complete hp => exact le_trans (Nat.sub_le _ _) hs

/-- C3: for a batch of any size `n`, every state the limiter can reach has
at most `limitCeiling = 3` items simultaneously in flight — the ceiling is
a fixed constant independent of the batch size. -/
theorem C3_concurrency_ceiling (n : Nat) (s : LimiterState)
    (h : LimReachable n s) : s.active ≤ limitCeiling := by
  unfold LimReachable at h
  induction h with
  | refl => exact Nat.zero_le _
  | tail hab hbc ih => exact LimStep_active_le hbc ih

/-- Witness for C3: a 500-item batch after one dispatch has 1 ≤ 3 in
flight. -/
theorem C3_concurrency_ceiling_witness :
    (⟨499, 1⟩ : LimiterState).active ≤ limitCeiling :=
  C3_concurrency_ceiling 500 ⟨499, 1⟩
    (Relation.ReflTransGen.single
      (LimStep.dispatch ⟨500, 0⟩ (by decide) (by decide)))

/-- Helper: a step of the shared two-batch limiter never raises the
combined in-flight count above the ceiling. -/
theorem TwoBatchStep_active_le {s t : TwoBatchState} (h : TwoBatchStep s t)
    (hs : s.activeA + s.activeB ≤ limitCeiling) :
    t.activeA + t.activeB ≤ limitCeiling := by
  cases h with
  | dispatchA hlt hp => dsimp only at hs ⊢; omega
  | dispatchB hlt hp => dsimp only at hs ⊢; omega
  | completeA hp => dsimp only at hs ⊢; omega
  | completeB hp => dsimp only at hs ⊢; omega

/-- C10: the limiter is one module-level singleton shared by all
`processFiles` invocations, so when two batches overlap, every reachable
state keeps the COMBINED in-flight count of both batches at most
`limitCeiling = 3` — not 3 per batch. -/
theorem C10_global_ceiling (n m : Nat) (s : TwoBatchState)
    (h : TwoBatchReachable n m s) :
    s.activeA + s.activeB ≤ limitCeiling := by
  unfold TwoBatchReachable at h
  induction h with
  | refl => exact Nat.zero_le _
  | tail hab hbc ih => exact TwoBatchStep_active_le hbc ih

/-- Witness for C10: with batches of 10 and 5 items and three dispatches
(two from A, one from B), the combined in-flight count is 3 ≤ 3. -/
theorem C10_global_ceiling_witness :
    (⟨8, 4, 2, 1⟩ : TwoBatchState).activeA +
      (⟨8, 4, 2, 1⟩ : TwoBatchState).activeB ≤ limitCeiling :=
  C10_global_ceiling 10 5 ⟨8, 4, 2, 1⟩
    (Relation.ReflTransGen.head
      (TwoBatchStep.dispatchA ⟨10, 5, 0, 0⟩ (by decide) (by decide))
      (Relation.ReflTransGen.head
        (TwoBatchStep.dispatchA ⟨9, 5, 1, 0⟩ (by decide) (by decide))
        (Relation.ReflTransGen.single
          (TwoBatchStep.dispatchB ⟨8, 5, 2, 0⟩ (by decide) (by decide)))))

end PngCompress
